import Mathlib

/-!
Shallow embedding of the aggregation query layer of the expense tracker
backend (`backend/stats_routes.py` together with the response shapes of
`backend/stats_models.py`).

The five endpoints are SQL queries over a single `expenses` table; we model
the table as a `List Expense` and each endpoint as a pure function from that
list (plus the optional filter parameters) to the formatted response.

Modelling choices, each matching the behaviour of the stack the code runs on
(SQLAlchemy over SQLite, Python formatting at the output boundary):
* dates are `year/month/day` triples; SQLite stores a `Date` column as an
  ISO `YYYY-MM-DD` string, so comparisons are chronological for calendar
  dates — we compare through the numeric key `y*10000 + m*100 + d`, which
  orders triples of a calendar date exactly as their ISO strings;
* monetary amounts are `ℚ` (full-precision internal summation); Python
  `round(x, 2)` is rounding to 2 decimal digits with ties going to the even
  last digit, embedded as `round2`;
* `func.sum`/`func.count`/`func.avg`/`func.min`/`func.max` aggregate a group
  list; `GROUP BY k` produces one row per distinct key of the input, and
  `ORDER BY ... DESC` sorts the rows by the unrounded sort expression;
* SQLite `strftime` with format `%Y-W%W` is embedded from the SQLite
  implementation: `%W` is the Monday-start week-of-year,
  `(dayOfYear - 1 + 7 - weekday) / 7` with `weekday` numbered from
  `0 = Monday`.
-/

namespace ExpenseStats

/-- A calendar date as stored in the `date` column (`YYYY-MM-DD`). -/
structure Date where
  year : Nat
  month : Nat
  day : Nat
deriving DecidableEq, Repr

/-- Numeric key whose order on calendar dates coincides with the order of
their ISO `YYYY-MM-DD` strings, which is what SQLite compares. -/
def Date.key (d : Date) : Nat := d.year * 10000 + d.month * 100 + d.day

/-- The `<=` that the SQL `Expense.date >= start_date` / `<= end_date`
filters evaluate. -/
def dateLe (a b : Date) : Bool := a.key ≤ b.key

/-- A row of the `expenses` table, as used by the stats queries. -/
structure Expense where
  id : Nat
  amount : ℚ
  category : String
  date : Date
deriving DecidableEq, Repr

/-- The date-range filter applied by four of the five endpoints:
`if start_date: query = query.filter(Expense.date >= start_date)` and
`if end_date: query = query.filter(Expense.date <= end_date)`.
An absent parameter (`None`, the only falsy value of `Optional[date]`)
adds no condition. -/
def filterRecords (records : List Expense) (start_date end_date : Option Date) :
    List Expense :=
  records.filter fun r =>
    (match start_date with
     | none => true
     | some s => dateLe s r.date) &&
    (match end_date with
     | none => true
     | some e => dateLe r.date e)

/-- Floor of a rational as an integer (`q.den` is positive, so flooring
division of the numerator by the denominator is the mathematical floor). -/
def qfloor (q : ℚ) : ℤ := Int.fdiv q.num (q.den : ℤ)

/-- Rounding to the nearest integer with ties to the even integer, the
rule Python `round` applies. -/
def roundHalfEven (q : ℚ) : ℤ :=
  let f := qfloor q
  if q < (f : ℚ) + 1/2 then f
  else if (f : ℚ) + 1/2 < q then f + 1
  else if f % 2 = 0 then f else f + 1

/-- Python `round(x, 2)`: round to two decimal digits, ties to even. -/
def round2 (q : ℚ) : ℚ := (roundHalfEven (q * 100) : ℚ) / 100

/-- `func.sum(Expense.amount)` over a group. -/
def sqlSum (g : List Expense) : ℚ := (g.map Expense.amount).sum

/-- `func.avg(Expense.amount)` over a group: sum divided by count. -/
def sqlAvg (g : List Expense) : ℚ := sqlSum g / (g.length : ℚ)

/-- Response shape `CategoryStats` of `stats_models.py`. -/
structure CategoryStats where
  category : String
  total : ℚ
  count : Nat
  average : ℚ
deriving DecidableEq, Repr

/-- The unformatted rows of the `by-category` query: one row per distinct
`category` value of the (filtered) input, carrying the SQL aggregates
`(category, sum, count, avg)`. -/
def categoryRows (f : List Expense) : List (String × ℚ × Nat × ℚ) :=
  ((f.map Expense.category).dedup).map fun c =>
    let g := f.filter fun r => r.category = c
    (c, sqlSum g, g.length, sqlAvg g)

/-- The sort relation of `ORDER BY sum(amount) DESC`: row `a` precedes row
`b` when the (unrounded) total of `a` is at least that of `b`. -/
def totalGe (a b : String × ℚ × Nat × ℚ) : Prop := b.2.1 ≤ a.2.1

instance : DecidableRel totalGe :=
  fun a b => inferInstanceAs (Decidable (b.2.1 ≤ a.2.1))

instance : IsTotal (String × ℚ × Nat × ℚ) totalGe :=
  ⟨fun a b => le_total b.2.1 a.2.1⟩

instance : IsTrans (String × ℚ × Nat × ℚ) totalGe :=
  ⟨fun _ _ _ h1 h2 => le_trans h2 h1⟩

/-- The rows of the `by-category` query after `ORDER BY sum(amount) DESC`,
still unrounded. -/
def orderedCategoryRows (records : List Expense) (start_date end_date : Option Date) :
    List (String × ℚ × Nat × ℚ) :=
  (categoryRows (filterRecords records start_date end_date)).insertionSort totalGe

/-- Endpoint `GET /api/stats/by-category`: filter, group by category,
aggregate, order by total descending, and round `total` and `average` to two
decimals in the response loop. -/
def get_stats_by_category (records : List Expense) (start_date end_date : Option Date) :
    List CategoryStats :=
  (orderedCategoryRows records start_date end_date).map fun row =>
    ⟨row.1, round2 row.2.1, row.2.2.1, round2 row.2.2.2⟩

/-- Response shape `OverallStats` of `stats_models.py`. -/
structure OverallStats where
  total : ℚ
  count : Nat
  average : ℚ
  min : ℚ
  max : ℚ
deriving DecidableEq, Repr

/-- Endpoint `GET /api/stats/total`: aggregate sum/count/avg/min/max over the
filtered rows. `SUM` of an empty set is SQL `NULL` (the `amount` column is
never `NULL`), and the code answers the all-zero record in that case
(`if result[0] is None`); otherwise each monetary field is rounded. -/
def get_stats_total (records : List Expense) (start_date end_date : Option Date) :
    OverallStats :=
  match filterRecords records start_date end_date with
  | [] => ⟨0, 0, 0, 0, 0⟩
  | a :: t =>
    ⟨round2 (sqlSum (a :: t)), (a :: t).length, round2 (sqlAvg (a :: t)),
     round2 ((t.map Expense.amount).foldl min a.amount),
     round2 ((t.map Expense.amount).foldl max a.amount)⟩

/-- Gregorian leap-year rule, as SQLite applies it to `YYYY-MM-DD` text. -/
def isLeap (y : Nat) : Bool := (y % 4 = 0 && ¬ y % 100 = 0) || y % 400 = 0

/-- Length of month `m` (`1..12`) in a common or leap year. -/
def monthLength (leap : Bool) (m : Nat) : Nat :=
  match m with
  | 1 => 31
  | 2 => if leap then 29 else 28
  | 3 => 31
  | 4 => 30
  | 5 => 31
  | 6 => 30
  | 7 => 31
  | 8 => 31
  | 9 => 30
  | 10 => 31
  | 11 => 30
  | 12 => 31
  | _ => 0

/-- Days in months `1 .. m-1`, i.e. days of the year before month `m`. -/
def daysBeforeMonth (leap : Bool) : Nat → Nat
  | 0 => 0
  | m + 1 => daysBeforeMonth leap m + monthLength leap m

/-- One-based ordinal of the day within its year (`%j` in `strftime`). -/
def dayOfYear (d : Date) : Nat := daysBeforeMonth (isLeap d.year) d.month + d.day

/-- Days of the proleptic Gregorian calendar before year `y` began. -/
def daysBeforeYear (y : Nat) : Nat :=
  365 * (y - 1) + (y - 1) / 4 - (y - 1) / 100 + (y - 1) / 400

/-- Day index in the proleptic Gregorian calendar: `0001-01-01` is day `0`. -/
def dayNumber (d : Date) : Nat := daysBeforeYear d.year + dayOfYear d - 1

/-- Day of week numbered with `0 = Monday`, …, `6 = Sunday`; day `0`
(`0001-01-01`) is a Monday, as in the Julian-day arithmetic SQLite uses. -/
def weekdayM0 (d : Date) : Nat := dayNumber d % 7

/-- SQLite `%W`: the Monday-start week of year, computed in `date.c` as
`(nDay + 7 - wd) / 7` where `nDay` is the zero-based day of year and `wd`
is the day of week with `0 = Monday`. -/
def weekOfYearW (d : Date) : Nat := (dayOfYear d - 1 + 7 - weekdayM0 d) / 7

/-- Zero-padded two-digit print (`%02d` / `%W`-style formatting). -/
def pad2 (n : Nat) : String := if n < 10 then "0" ++ toString n else toString n

/-- Zero-padded four-digit print (`%Y` formatting). -/
def pad4 (n : Nat) : String :=
  if n < 10 then "000" ++ toString n
  else if n < 100 then "00" ++ toString n
  else if n < 1000 then "0" ++ toString n
  else toString n

/-- `func.strftime("%Y-W%W", Expense.date)`: the weekly grouping key. -/
def weekKey (d : Date) : String := pad4 d.year ++ "-W" ++ pad2 (weekOfYearW d)

/-- `func.strftime("%Y-%m", Expense.date)`: the monthly grouping key. -/
def monthKey (d : Date) : String := pad4 d.year ++ "-" ++ pad2 d.month

/-- Python `str(...)` on a date: ISO `YYYY-MM-DD`. -/
def isoDate (d : Date) : String :=
  pad4 d.year ++ "-" ++ pad2 d.month ++ "-" ++ pad2 d.day

/-- One step of the running minimum behind `func.min(Expense.date)`. -/
def minStep (acc d : Date) : Date := if d.key < acc.key then d else acc

/-- One step of the running maximum behind `func.max(Expense.date)`. -/
def maxStep (acc d : Date) : Date := if acc.key < d.key then d else acc

/-- `func.min(Expense.date)` on a group: least date of the list (the SQL
`MIN` of an ISO date column; the empty case never reaches the output). -/
def sqlMinDate : List Date → Date
  | [] => ⟨0, 0, 0⟩
  | a :: t => t.foldl minStep a

/-- `func.max(Expense.date)` on a group. -/
def sqlMaxDate : List Date → Date
  | [] => ⟨0, 0, 0⟩
  | a :: t => t.foldl maxStep a

/-- Response shape `WeeklyStats` of `stats_models.py`. -/
structure WeeklyStats where
  week : String
  start_date : String
  end_date : String
  total : ℚ
  count : Nat
deriving DecidableEq, Repr

/-- Response shape `DailyStats` of `stats_models.py`. -/
structure DailyStats where
  date : String
  total : ℚ
  count : Nat
deriving DecidableEq, Repr

/-- Response shape `MonthlyStats` of `stats_models.py`. -/
structure MonthlyStats where
  month : String
  total : ℚ
  count : Nat
  average : ℚ
deriving DecidableEq, Repr

/-- Lexicographic `≤` on character lists by code point; on the ASCII keys
this layer produces it coincides with the bytewise BINARY collation SQLite
sorts text with. -/
def strLeb : List Char → List Char → Bool
  | [], _ => true
  | _ :: _, [] => false
  | a :: s, b :: t =>
    if a.toNat < b.toNat then true
    else if b.toNat < a.toNat then false
    else strLeb s t

lemma strLeb_total (s : List Char) : ∀ t, strLeb s t = true ∨ strLeb t s = true := by
  induction s with
  | nil => intro t; left; rfl
  | cons a s ih =>
    intro t
    cases t with
    | nil => right; rfl
    | cons b t =>
      by_cases h1 : a.toNat < b.toNat
      · left; simp [strLeb, h1]
      · by_cases h2 : b.toNat < a.toNat
        · right; simp [strLeb, h1, h2]
        · rcases ih t with h | h
          · left; simp [strLeb, h1, h2, h]
          · right; simp [strLeb, h1, h2, h]

lemma strLeb_trans (s : List Char) :
    ∀ t u, strLeb s t = true → strLeb t u = true → strLeb s u = true := by
  induction s with
  | nil => intro t u _ _; rfl
  | cons a s ih =>
    intro t u h1 h2
    cases t with
    | nil => simp [strLeb] at h1
    | cons b t =>
      cases u with
      | nil => simp [strLeb] at h2
      | cons c u =>
        rcases Nat.lt_trichotomy a.toNat b.toNat with hab | hab | hab
        · rcases Nat.lt_trichotomy b.toNat c.toNat with hbc | hbc | hbc
          · simp [strLeb, show a.toNat < c.toNat by omega]
          · simp [strLeb, show a.toNat < c.toNat by omega]
          · simp [strLeb, show ¬ b.toNat < c.toNat by omega, hbc] at h2
        · rcases Nat.lt_trichotomy b.toNat c.toNat with hbc | hbc | hbc
          · simp [strLeb, show a.toNat < c.toNat by omega]
          · simp only [strLeb, if_neg (show ¬ a.toNat < b.toNat by omega),
              if_neg (show ¬ b.toNat < a.toNat by omega)] at h1
            simp only [strLeb, if_neg (show ¬ b.toNat < c.toNat by omega),
              if_neg (show ¬ c.toNat < b.toNat by omega)] at h2
            simp only [strLeb, if_neg (show ¬ a.toNat < c.toNat by omega),
              if_neg (show ¬ c.toNat < a.toNat by omega)]
            exact ih t u h1 h2
          · simp [strLeb, show ¬ b.toNat < c.toNat by omega, hbc] at h2
        · simp [strLeb, show ¬ a.toNat < b.toNat by omega, hab] at h1

/-- Sort relation of `ORDER BY <string key> DESC`: `a` precedes `b` when
`b` is at most `a` in the collation order. -/
def strGe (a b : String) : Prop := strLeb b.data a.data = true

instance : DecidableRel strGe :=
  fun a b => inferInstanceAs (Decidable (strLeb b.data a.data = true))

instance : IsTotal String strGe := ⟨fun a b => strLeb_total b.data a.data⟩

instance : IsTrans String strGe :=
  ⟨fun _ b _ h1 h2 => strLeb_trans _ b.data _ h2 h1⟩

/-- Sort relation of `ORDER BY Expense.date DESC`. -/
def dateGe (a b : Date) : Prop := b.key ≤ a.key

instance : DecidableRel dateGe := fun a b => inferInstanceAs (Decidable (b.key ≤ a.key))

instance : IsTotal Date dateGe := ⟨fun a b => le_total b.key a.key⟩

instance : IsTrans Date dateGe := ⟨fun _ _ _ h1 h2 => le_trans h2 h1⟩

/-- One formatted row of the weekly branch, for the group of filtered rows
whose week key is `k`: `min(date)`, `max(date)`, `sum(amount)`, `count`,
with `str(...)` applied to the dates and rounding to the total. -/
def weeklyRow (f : List Expense) (k : String) : WeeklyStats :=
  let g := f.filter fun r => weekKey r.date = k
  ⟨k, isoDate (sqlMinDate (g.map Expense.date)),
   isoDate (sqlMaxDate (g.map Expense.date)),
   round2 (sqlSum g), g.length⟩

/-- The weekly branch of `GET /api/stats/by-date`: filter, group by the
`%Y-W%W` key, aggregate per group, order by the week key descending. -/
def get_stats_by_date_weekly (records : List Expense)
    (start_date end_date : Option Date) : List WeeklyStats :=
  let f := filterRecords records start_date end_date
  (((f.map fun r => weekKey r.date).dedup).insertionSort strGe).map (weeklyRow f)

/-- The daily branch of `GET /api/stats/by-date`: filter, group by the exact
date, aggregate, order by date descending. -/
def get_stats_by_date_daily (records : List Expense)
    (start_date end_date : Option Date) : List DailyStats :=
  let f := filterRecords records start_date end_date
  (((f.map Expense.date).dedup).insertionSort dateGe).map fun d =>
    let g := f.filter fun r => r.date = d
    ⟨isoDate d, round2 (sqlSum g), g.length⟩

/-- The two possible response shapes of `GET /api/stats/by-date`. -/
inductive DateBreakdown where
  | daily : List DailyStats → DateBreakdown
  | weekly : List WeeklyStats → DateBreakdown
deriving DecidableEq, Repr

/-- Endpoint `GET /api/stats/by-date`. The `grouping` query parameter
defaults to `"daily"` when omitted (`Query("daily")`), and the handler
branches on `if grouping == "daily": ... else: # weekly`. -/
def get_stats_by_date (records : List Expense) (start_date end_date : Option Date)
    (grouping : Option String) : DateBreakdown :=
  if grouping.getD "daily" = "daily" then
    .daily (get_stats_by_date_daily records start_date end_date)
  else
    .weekly (get_stats_by_date_weekly records start_date end_date)

/-- Endpoint `GET /api/stats/by-month`: no filter parameters; group the full
table by the `%Y-%m` key, aggregate sum/count/avg, order by the key
descending, round monetary fields. -/
def get_stats_by_month (records : List Expense) : List MonthlyStats :=
  (((records.map fun r => monthKey r.date).dedup).insertionSort strGe).map fun k =>
    let g := records.filter fun r => monthKey r.date = k
    ⟨k, round2 (sqlSum g), g.length, round2 (sqlAvg g)⟩

/-- A spec-side definition, named from the words of the specification for
comparison with the code's `weekOfYearW`: a Sunday-start, `%W`-style week of
year, where week 0 is the days before the first Sunday of the year and the
week number increments on each subsequent Sunday. With `0 = Monday`
numbering, the day of week with `0 = Sunday` is `(dayNumber + 1) % 7`. -/
def specSundayWeekOfYear (d : Date) : Nat :=
  (dayOfYear d - 1 + 7 - (dayNumber d + 1) % 7) / 7

/-- The number of Mondays of the year of `d` that fall on or before `d`.
This is the convention "week 0 before the first Monday of the year, and the
week number increments on each Monday" stated directly: day `j + 1` of the
year is a Monday exactly when `(daysBeforeYear year + j) % 7 = 0`. -/
def mondaysUpTo (d : Date) : Nat :=
  ((List.range (dayOfYear d)).filter fun j =>
    (daysBeforeYear d.year + j) % 7 = 0).length

/-! ### Helper lemmas -/

/-- Unfolding of the Boolean date comparison. -/
lemma dateLe_iff {a b : Date} : dateLe a b = true ↔ a.key ≤ b.key := by
  simp [dateLe]

/-- Membership in the filtered record list. -/
lemma mem_filterRecords {records : List Expense} {s e : Option Date} {r : Expense} :
    r ∈ filterRecords records s e ↔
      r ∈ records ∧ (∀ sd, s = some sd → dateLe sd r.date = true) ∧
        (∀ ed, e = some ed → dateLe r.date ed = true) := by
  unfold filterRecords
  rw [List.mem_filter]
  cases s <;> cases e <;> simp

/-- With both bounds absent the filter keeps everything. -/
lemma filterRecords_none_none (records : List Expense) :
    filterRecords records none none = records := by
  unfold filterRecords
  simp

/-- The size of a category group, as a count over the projected categories. -/
lemma filter_length_eq_count (l : List Expense) (c : String) :
    (l.filter fun r => r.category = c).length = (l.map Expense.category).count c := by
  induction l with
  | nil => simp
  | cons a t ih =>
    by_cases h : a.category = c
    · simp [List.filter_cons, h, List.count_cons, ih]
    · simp [List.filter_cons, h, List.count_cons, ih]

/-- The group sizes reported by the category query sum to the number of
input rows. -/
lemma category_counts_sum (l : List Expense) :
    ((categoryRows l).map fun row => row.2.2.1).sum = l.length := by
  unfold categoryRows
  rw [List.map_map]
  have h : ((l.map Expense.category).dedup.map fun c => (l.map Expense.category).count c).sum
      = (l.map Expense.category).length := List.sum_map_count_dedup_eq_length _
  rw [List.length_map] at h
  rw [← h]
  congr 1
  apply List.map_congr_left
  intro c _
  simpa [Function.comp] using filter_length_eq_count l c

/-- The running minimum of `minStep` lands in the candidate list and is a
lower bound for it. -/
lemma foldl_minStep_spec (t : List Date) : ∀ a : Date,
    t.foldl minStep a ∈ a :: t ∧
    (t.foldl minStep a).key ≤ a.key ∧
    ∀ d ∈ t, (t.foldl minStep a).key ≤ d.key := by
  induction t with
  | nil => intro a; simp
  | cons b t ih =>
    intro a
    rw [List.foldl_cons]
    obtain ⟨hmem, hle, hall⟩ := ih (minStep a b)
    have hstep : (minStep a b).key ≤ a.key ∧ (minStep a b).key ≤ b.key := by
      unfold minStep
      by_cases h : b.key < a.key
      · rw [if_pos h]; omega
      · rw [if_neg h]; omega
    refine ⟨?_, le_trans hle hstep.1, ?_⟩
    · rcases List.mem_cons.mp hmem with h1 | h1
      · rw [h1]
        unfold minStep
        by_cases h : b.key < a.key
        · rw [if_pos h]; simp
        · rw [if_neg h]; simp
      · simp [h1]
    · intro d hd
      rcases List.mem_cons.mp hd with rfl | hd
      · exact le_trans hle hstep.2
      · exact hall d hd

/-- The running maximum of `maxStep` lands in the candidate list and is an
upper bound for it. -/
lemma foldl_maxStep_spec (t : List Date) : ∀ a : Date,
    t.foldl maxStep a ∈ a :: t ∧
    a.key ≤ (t.foldl maxStep a).key ∧
    ∀ d ∈ t, d.key ≤ (t.foldl maxStep a).key := by
  induction t with
  | nil => intro a; simp
  | cons b t ih =>
    intro a
    rw [List.foldl_cons]
    obtain ⟨hmem, hle, hall⟩ := ih (maxStep a b)
    have hstep : a.key ≤ (maxStep a b).key ∧ b.key ≤ (maxStep a b).key := by
      unfold maxStep
      by_cases h : a.key < b.key
      · rw [if_pos h]; omega
      · rw [if_neg h]; omega
    refine ⟨?_, le_trans hstep.1 hle, ?_⟩
    · rcases List.mem_cons.mp hmem with h1 | h1
      · rw [h1]
        unfold maxStep
        by_cases h : a.key < b.key
        · rw [if_pos h]; simp
        · rw [if_neg h]; simp
      · simp [h1]
    · intro d hd
      rcases List.mem_cons.mp hd with rfl | hd
      · exact le_trans hstep.2 hle
      · exact hall d hd

/-- The `%W` arithmetic counts week-starts: for a day with zero-based
ordinal `m` in a year whose days `j` are Mondays exactly when
`(w + j) % 7 = 0`, the value `(m + 7 - (w + m) % 7) / 7` is the number of
Mondays among the days `0 .. m`. -/
lemma weekCount (w : Nat) : ∀ m : Nat, (m + 7 - (w + m) % 7) / 7 =
    ((List.range (m + 1)).filter fun j => (w + j) % 7 = 0).length := by
  intro m
  induction m with
  | zero =>
    have hr : List.range 1 = [0] := rfl
    by_cases h : w % 7 = 0
    · simp [hr, List.filter_cons, h]
    · simp [hr, List.filter_cons, h]
      omega
  | succ m ih =>
    rw [List.range_succ, List.filter_append, List.length_append, ← ih]
    by_cases h : (w + (m + 1)) % 7 = 0
    · simp [List.filter_cons, h]
      omega
    · simp [List.filter_cons, h]
      omega

/-- On dates with a positive day field, the SQLite `%W` value equals the
count of Mondays of the year up to the date. -/
lemma weekOfYearW_eq_mondaysUpTo (d : Date) (h : 1 ≤ d.day) :
    weekOfYearW d = mondaysUpTo d := by
  obtain ⟨m, hm⟩ : ∃ m, dayOfYear d = m + 1 :=
    ⟨dayOfYear d - 1, by unfold dayOfYear; omega⟩
  unfold weekOfYearW mondaysUpTo weekdayM0 dayNumber
  rw [hm]
  have h2 : daysBeforeYear d.year + (m + 1) - 1 = daysBeforeYear d.year + m := by
    omega
  have h3 : m + 1 - 1 = m := rfl
  rw [h2, h3]
  exact weekCount (daysBeforeYear d.year) m

/-- The three-record scenario of the specification:
`[10.00 food 2024-01-01, 20.005 food 2024-01-01, 5.00 transport 2024-01-02]`
(`20.005 = 4001/200`). -/
def demoRecords : List Expense :=
  [⟨1, 10, "food", ⟨2024, 1, 1⟩⟩,
   ⟨2, 4001/200, "food", ⟨2024, 1, 1⟩⟩,
   ⟨3, 5, "transport", ⟨2024, 1, 2⟩⟩]

/-! ### Claims -/

/-- C5: a record passes the date-range filter exactly when each present
bound is satisfied inclusively, and an inverted range (start after end)
filters everything out, with no validation error (the function is total and
simply answers the empty list). -/
theorem filter_date_range_semantics (records : List Expense)
    (start_date end_date : Option Date) :
    (∀ r, r ∈ filterRecords records start_date end_date ↔
        r ∈ records ∧ (∀ sd, start_date = some sd → dateLe sd r.date = true) ∧
          (∀ ed, end_date = some ed → dateLe r.date ed = true)) ∧
    (∀ sd ed, start_date = some sd → end_date = some ed → dateLe sd ed = false →
        filterRecords records start_date end_date = []) := by
  refine ⟨fun r => mem_filterRecords, ?_⟩
  rintro sd ed rfl rfl hlt
  rw [List.eq_nil_iff_forall_not_mem]
  intro r hr
  rw [mem_filterRecords] at hr
  obtain ⟨-, h1, h2⟩ := hr
  have h1 := dateLe_iff.mp (h1 sd rfl)
  have h2 := dateLe_iff.mp (h2 ed rfl)
  have : dateLe sd ed = true := dateLe_iff.mpr (le_trans h1 h2)
  rw [this] at hlt
  cases hlt

/-- Witness for C5: an inverted range on the demo records leaves nothing. -/
theorem filter_date_range_semantics_witness :
    filterRecords demoRecords (some ⟨2024, 3, 1⟩) (some ⟨2024, 1, 1⟩) = [] :=
  (filter_date_range_semantics demoRecords (some ⟨2024, 3, 1⟩) (some ⟨2024, 1, 1⟩)).2
    ⟨2024, 3, 1⟩ ⟨2024, 1, 1⟩ rfl rfl (by decide)

/-- C4: whenever the filtered record set is empty — in particular for an
empty store or an inverted date range — the overall summary is the all-zero
record, produced as a normal result. -/
theorem total_empty_filter_zeros (records : List Expense)
    (start_date end_date : Option Date)
    (h : filterRecords records start_date end_date = []) :
    get_stats_total records start_date end_date = ⟨0, 0, 0, 0, 0⟩ := by
  simp only [get_stats_total, h]

/-- Witness for C4: an inverted range over a non-empty store yields the
zero summary (and the empty-store case follows the same way). -/
theorem total_empty_filter_zeros_witness :
    filterRecords demoRecords (some ⟨2024, 2, 1⟩) (some ⟨2024, 1, 1⟩) = [] ∧
    get_stats_total demoRecords (some ⟨2024, 2, 1⟩) (some ⟨2024, 1, 1⟩) = ⟨0, 0, 0, 0, 0⟩ :=
  ⟨by decide, total_empty_filter_zeros demoRecords _ _ (by decide)⟩

/-- C7: the group counts of the category breakdown sum to the number of
records: the category groups partition the record set. -/
theorem category_counts_partition (records : List Expense) :
    ((get_stats_by_category records none none).map CategoryStats.count).sum
      = records.length := by
  unfold get_stats_by_category orderedCategoryRows
  rw [List.map_map]
  have hperm := (List.perm_insertionSort totalGe
    (categoryRows (filterRecords records none none))).map
      (fun row : String × ℚ × Nat × ℚ => row.2.2.1)
  calc ((categoryRows (filterRecords records none none)).insertionSort totalGe
          |>.map fun row => row.2.2.1).sum
      = ((categoryRows (filterRecords records none none)).map fun row => row.2.2.1).sum :=
        hperm.sum_eq
    _ = (filterRecords records none none).length := category_counts_sum _
    _ = records.length := by rw [filterRecords_none_none]

unseal Rat.add Rat.mul Rat.inv Rat.sub in
/-- C2: the records dated 2024-12-29 (a Sunday) and 2024-12-30 (a Monday)
land in two different week buckets — `2024-W52` and `2024-W53` — although
they share an ISO calendar week, because `%W` weeks cross between Sunday
and Monday. -/
theorem weekly_same_iso_week_distinct_buckets :
    get_stats_by_date_weekly
        [⟨1, 10, "food", ⟨2024, 12, 29⟩⟩, ⟨2, 5, "food", ⟨2024, 12, 30⟩⟩] none none =
      [⟨"2024-W53", "2024-12-30", "2024-12-30", 5, 1⟩,
       ⟨"2024-W52", "2024-12-29", "2024-12-29", 10, 1⟩] ∧
    ("2024-W52" : String) ≠ "2024-W53" :=
  ⟨by decide, by decide⟩

unseal Rat.add Rat.mul Rat.inv Rat.sub in
/-- C3, counterexample: on the three-record scenario the food total is not
`30.01`. Python `round` (and the float arithmetic it is applied to) sends
`30.005` to `30.00`, not up to `30.01`. -/
theorem category_scenario_claim_refuted :
    get_stats_by_category demoRecords none none ≠
      [⟨"food", 3001/100, 2, 15⟩, ⟨"transport", 5, 1, 5⟩] := by
  decide

unseal Rat.add Rat.mul Rat.inv Rat.sub in
/-- C3, amended: the category breakdown of the scenario is exactly
`food: total 30.00, count 2, average 15.00` then
`transport: total 5.00, count 1, average 5.00`, in that order. -/
theorem category_scenario_rounded :
    get_stats_by_category demoRecords none none =
      [⟨"food", 30, 2, 15⟩, ⟨"transport", 5, 1, 5⟩] := by
  decide

/-- C6: the category breakdown groups by the exact category string; each
row carries the full-precision sum, the group size, and their quotient; the
rows are ordered descending by the unrounded total; and rounding to two
decimals happens only in the final formatting map. -/
theorem category_aggregation_shape (records : List Expense)
    (start_date end_date : Option Date) (row : String × ℚ × Nat × ℚ)
    (hrow : row ∈ orderedCategoryRows records start_date end_date) :
    List.Sorted totalGe (orderedCategoryRows records start_date end_date) ∧
    get_stats_by_category records start_date end_date =
      (orderedCategoryRows records start_date end_date).map
        (fun x => ⟨x.1, round2 x.2.1, x.2.2.1, round2 x.2.2.2⟩) ∧
    row.2.1 = (((filterRecords records start_date end_date).filter
        (fun r => r.category = row.1)).map Expense.amount).sum ∧
    row.2.2.1 = ((filterRecords records start_date end_date).filter
        (fun r => r.category = row.1)).length ∧
    row.2.2.2 = row.2.1 / (row.2.2.1 : ℚ) := by
  refine ⟨List.sorted_insertionSort totalGe _, rfl, ?_⟩
  rw [orderedCategoryRows, List.mem_insertionSort] at hrow
  unfold categoryRows at hrow
  rw [List.mem_map] at hrow
  obtain ⟨c, _, rfl⟩ := hrow
  exact ⟨rfl, rfl, rfl⟩

unseal Rat.add Rat.mul Rat.inv Rat.sub in
/-- Witness for C6: in the scenario records, the unrounded food total the
query reports is the sum of the amounts of the food group. -/
theorem category_aggregation_shape_witness :
    (6001/200 : ℚ) = ((demoRecords.filter
        (fun r => r.category = "food")).map Expense.amount).sum := by
  have h := (category_aggregation_shape demoRecords none none
    ("food", 6001/200, 2, 6001/400) (by decide)).2.2.1
  rw [filterRecords_none_none] at h
  exact h

/-- C10: an omitted `grouping` parameter behaves exactly like
`grouping = "daily"` (the declared default), and any other value takes the
weekly branch. -/
theorem by_date_default_daily (records : List Expense)
    (start_date end_date : Option Date) :
    get_stats_by_date records start_date end_date none =
      get_stats_by_date records start_date end_date (some "daily") ∧
    get_stats_by_date records start_date end_date none =
      .daily (get_stats_by_date_daily records start_date end_date) ∧
    (∀ g, g ≠ "daily" →
      get_stats_by_date records start_date end_date (some g) =
        .weekly (get_stats_by_date_weekly records start_date end_date)) := by
  refine ⟨rfl, rfl, fun g hg => ?_⟩
  unfold get_stats_by_date
  rw [if_neg]
  simpa [Option.getD] using hg

/-- Witness for C10: `grouping = "weekly"` on the demo records takes the
weekly branch. -/
theorem by_date_default_daily_witness :
    get_stats_by_date demoRecords none none (some "weekly") =
      .weekly (get_stats_by_date_weekly demoRecords none none) :=
  (by_date_default_daily demoRecords none none).2.2 "weekly" (by decide)

unseal Rat.add Rat.mul Rat.inv Rat.sub in
/-- C1, counterexample: the weekly aggregation does not name buckets with a
Sunday-start week number. A record dated 2024-12-30 (a Monday) is bucketed
as `2024-W53`, while the Sunday-start numbering of that date is week 52. -/
theorem weekly_bucket_key_sunday_refuted :
    ¬ ((get_stats_by_date_weekly [⟨7, 3, "misc", ⟨2024, 12, 30⟩⟩] none none).map
        WeeklyStats.week =
      [pad4 2024 ++ "-W" ++ pad2 (specSundayWeekOfYear ⟨2024, 12, 30⟩)]) := by
  decide

/-- C1, amended: every filtered record is assigned to the bucket named
`{year}-W{nn}` where `nn` is the Monday-start, `%W`-style week of year:
week 0 is the days before the first Monday of the year, and the number
increments on each Monday — stated here as the count of Mondays of the year
on or before the record's date. -/
theorem weekly_bucket_key_monday_convention (records : List Expense)
    (start_date end_date : Option Date) (r : Expense)
    (hr : r ∈ filterRecords records start_date end_date)
    (hday : 1 ≤ r.date.day) :
    ∃ entry ∈ get_stats_by_date_weekly records start_date end_date,
      entry.week = pad4 r.date.year ++ "-W" ++ pad2 (mondaysUpTo r.date) := by
  refine ⟨weeklyRow (filterRecords records start_date end_date) (weekKey r.date),
    ?_, ?_⟩
  · simp only [get_stats_by_date_weekly]
    apply List.mem_map_of_mem
    rw [List.mem_insertionSort, List.mem_dedup]
    exact List.mem_map_of_mem _ hr
  · show weekKey r.date = _
    unfold weekKey
    rw [weekOfYearW_eq_mondaysUpTo r.date hday]

unseal Rat.add Rat.mul Rat.inv Rat.sub in
/-- Witness for C1 (amended): the Monday record 2024-12-30 is bucketed
under the key with `nn` the count of Mondays up to it, 53. -/
theorem weekly_bucket_key_monday_convention_witness :
    ∃ entry ∈ get_stats_by_date_weekly [⟨7, 3, "misc", ⟨2024, 12, 30⟩⟩] none none,
      entry.week = pad4 2024 ++ "-W" ++ pad2 (mondaysUpTo ⟨2024, 12, 30⟩) :=
  weekly_bucket_key_monday_convention [⟨7, 3, "misc", ⟨2024, 12, 30⟩⟩] none none
    ⟨7, 3, "misc", ⟨2024, 12, 30⟩⟩ (by decide) (by decide)

/-- C8: each weekly bucket reports as `start_date` the least and as
`end_date` the greatest of the actual expense dates of the records grouped
into that bucket — observed dates, not calendar week boundaries. -/
theorem weekly_bounds_min_max (records : List Expense)
    (start_date end_date : Option Date) (entry : WeeklyStats)
    (hentry : entry ∈ get_stats_by_date_weekly records start_date end_date) :
    ∃ g, g = (filterRecords records start_date end_date).filter
        (fun r => weekKey r.date = entry.week) ∧
      g ≠ [] ∧
      (∃ dmin, entry.start_date = isoDate dmin ∧ dmin ∈ g.map Expense.date ∧
        ∀ d ∈ g.map Expense.date, dmin.key ≤ d.key) ∧
      (∃ dmax, entry.end_date = isoDate dmax ∧ dmax ∈ g.map Expense.date ∧
        ∀ d ∈ g.map Expense.date, d.key ≤ dmax.key) := by
  simp only [get_stats_by_date_weekly, List.mem_map] at hentry
  obtain ⟨k, hk, rfl⟩ := hentry
  rw [List.mem_insertionSort, List.mem_dedup, List.mem_map] at hk
  obtain ⟨r, hr, hkey⟩ := hk
  simp only [weeklyRow]
  refine ⟨_, rfl, ?_, ?_, ?_⟩
  · apply List.ne_nil_of_mem (a := r)
    rw [List.mem_filter]
    exact ⟨hr, by simp [hkey]⟩
  · rcases hG : ((filterRecords records start_date end_date).filter
        (fun r => weekKey r.date = k)).map Expense.date with _ | ⟨a, t⟩
    · have : r ∈ (filterRecords records start_date end_date).filter
          (fun r => weekKey r.date = k) := by
        rw [List.mem_filter]; exact ⟨hr, by simp [hkey]⟩
      rw [List.map_eq_nil_iff] at hG
      rw [hG] at this
      exact absurd this (List.not_mem_nil r)
    · rw [hG]
      obtain ⟨hmem, hle, hall⟩ := foldl_minStep_spec t a
      exact ⟨_, rfl, hmem, fun d hd => by
        rcases List.mem_cons.mp hd with rfl | hd
        · exact hle
        · exact hall d hd⟩
  · rcases hG : ((filterRecords records start_date end_date).filter
        (fun r => weekKey r.date = k)).map Expense.date with _ | ⟨a, t⟩
    · have : r ∈ (filterRecords records start_date end_date).filter
          (fun r => weekKey r.date = k) := by
        rw [List.mem_filter]; exact ⟨hr, by simp [hkey]⟩
      rw [List.map_eq_nil_iff] at hG
      rw [hG] at this
      exact absurd this (List.not_mem_nil r)
    · rw [hG]
      obtain ⟨hmem, hle, hall⟩ := foldl_maxStep_spec t a
      exact ⟨_, rfl, hmem, fun d hd => by
        rcases List.mem_cons.mp hd with rfl | hd
        · exact hle
        · exact hall d hd⟩

unseal Rat.add Rat.mul Rat.inv Rat.sub in
/-- Witness for C8: the single bucket of a one-record store carries that
record's date as both start and end. -/
theorem weekly_bounds_min_max_witness :
    ∃ g, g = (filterRecords [⟨9, 8, "misc", ⟨2021, 6, 15⟩⟩] none none).filter
        (fun r => weekKey r.date = "2021-W24") ∧
      g ≠ [] ∧
      (∃ dmin, ("2021-06-15" : String) = isoDate dmin ∧ dmin ∈ g.map Expense.date ∧
        ∀ d ∈ g.map Expense.date, dmin.key ≤ d.key) ∧
      (∃ dmax, ("2021-06-15" : String) = isoDate dmax ∧ dmax ∈ g.map Expense.date ∧
        ∀ d ∈ g.map Expense.date, d.key ≤ dmax.key) :=
  weekly_bounds_min_max [⟨9, 8, "misc", ⟨2021, 6, 15⟩⟩] none none
    ⟨"2021-W24", "2021-06-15", "2021-06-15", 8, 1⟩ (by decide)

/-- C9: the monthly breakdown takes no filter parameters — it is a function
of the full record set alone — groups by the `{year}-{month:02d}` key,
reports per group the rounded total, the size, and the rounded quotient
total/count, and orders the groups descending by the month key. -/
theorem monthly_aggregation_shape (records : List Expense) (entry : MonthlyStats)
    (hentry : entry ∈ get_stats_by_month records) :
    List.Sorted (fun a b : MonthlyStats => strGe a.month b.month)
      (get_stats_by_month records) ∧
    (∀ r ∈ records, ∃ e2 ∈ get_stats_by_month records,
      e2.month = monthKey r.date) ∧
    (∃ r ∈ records, entry.month = monthKey r.date) ∧
    entry.total = round2 (((records.filter
      (fun r => monthKey r.date = entry.month)).map Expense.amount).sum) ∧
    entry.count = (records.filter
      (fun r => monthKey r.date = entry.month)).length ∧
    entry.average = round2 (((records.filter
        (fun r => monthKey r.date = entry.month)).map Expense.amount).sum /
      ((records.filter (fun r => monthKey r.date = entry.month)).length : ℚ)) := by
  refine ⟨?_, ?_, ?_⟩
  · unfold get_stats_by_month
    exact (List.sorted_insertionSort strGe _).map _ (fun a b h => h)
  · intro r hr
    refine ⟨_, List.mem_map_of_mem _ ?_, rfl⟩
    rw [List.mem_insertionSort, List.mem_dedup]
    exact List.mem_map_of_mem _ hr
  · simp only [get_stats_by_month, List.mem_map] at hentry
    obtain ⟨k, hk, rfl⟩ := hentry
    rw [List.mem_insertionSort, List.mem_dedup, List.mem_map] at hk
    obtain ⟨r, hr, hkey⟩ := hk
    exact ⟨⟨r, hr, hkey.symm⟩, rfl, rfl, rfl⟩

unseal Rat.add Rat.mul Rat.inv Rat.sub in
/-- Witness for C9: the demo records collapse to the single month
`2024-01` with total 35.00, count 3, average 11.67. -/
theorem monthly_aggregation_shape_witness :
    (35 : ℚ) = round2 (((demoRecords.filter
      (fun r => monthKey r.date = "2024-01")).map Expense.amount).sum) :=
  (monthly_aggregation_shape demoRecords ⟨"2024-01", 35, 3, 1167/100⟩
    (by decide)).2.2.2.1

end ExpenseStats
